import Mathlib

/-!
Shallow embedding of the flash-sale frontend (`Fardin7864/frontend`): the countdown
hook `useReservationTimer`, the pure computations of `ProductsPage`, the anonymous
user-id helpers, and a spec-modelled reservation lifecycle engine, together with
proofs of the frozen claims about the repository's specification.

JS machine numbers that are only ever integers in these code paths are embedded as
`Int` (or `Nat` for counters); timestamps are milliseconds since the epoch as `Int`;
`new Date(s).getTime()` and `new Date(t).toISOString()` are abstracted as parameters
`parseT : String → Int` and `toIso : Int → String` wherever they occur.
-/

/-! ## `src/hooks/useReservationTimer.ts` -/

/-- One tick of `useReservationTimer` (`useReservationTimer.ts` lines 22-35):
`diff = target - now; next = diff > 0 ? diff : 0`. -/
def tickNext (target now : Int) : Int :=
  if target - now > 0 then target - now else 0

/-- The `remainingMs` value held by `useReservationTimer` after a tick at time `now`.
The effect body (lines 13-20) sets `remainingMs` to `null` when `!expiresAt` — JS
falsiness, i.e. `expiresAt` is `undefined` or the empty string — and otherwise every
tick stores `tickNext target now` with `target = new Date(expiresAt).getTime()`,
the parse abstracted as `parseT`. -/
def remainingForExpiresAt (parseT : String → Int) (expiresAt : Option String)
    (now : Int) : Option Int :=
  match expiresAt with
  | none => none
  | some s => if s = "" then none else some (tickNext (parseT s) now)

/-- JS `String.prototype.padStart(n, c)`. -/
def padStart (s : String) (n : Nat) (c : Char) : String :=
  if n ≤ s.length then s else String.mk (List.replicate (n - s.length) c) ++ s

/-- `totalSeconds` of the hook (lines 42-43): `Math.floor(remainingMs / 1000)` when
`remainingMs` is not `null`.  `remainingMs` is always `≥ 0` when set (the tick clamps
at `0`), so integer division agrees with `Math.floor`. -/
def totalSeconds (remainingMs : Option Int) : Option Int :=
  remainingMs.map (fun ms => ms / 1000)

/-- `mm` of the hook (lines 45-48): minutes, zero-padded to two digits, `"--"` when
`remainingMs` is `null`. -/
def timerMM (remainingMs : Option Int) : String :=
  match totalSeconds remainingMs with
  | none => "--"
  | some t => padStart (toString (t / 60)) 2 '0'

/-- `ss` of the hook (lines 49-50): seconds, zero-padded, `"--"` when `null`. -/
def timerSS (remainingMs : Option Int) : String :=
  match totalSeconds remainingMs with
  | none => "--"
  | some t => padStart (toString (t % 60)) 2 '0'

/-- Number of `onElapsed` invocations over a list of tick times within one effect
lifetime (lines 19-38): the mutable `last` starts at `Math.max(target - Date.now(), 0)`
and a tick fires the callback iff `last > 0 && next === 0`, then updates `last`. -/
def fireCount (target : Int) (last : Int) : List Int → Nat
  | [] => 0
  | t :: ts =>
    (if 0 < last ∧ tickNext target t = 0 then 1 else 0) + fireCount target (tickNext target t) ts

/-! ## Pure computations of `src/components/ProductsPage.tsx` -/

/-- `ReservationStatus` (`ProductsPage.tsx`). -/
inductive RStatus where
  | ACTIVE
  | COMPLETED
  | EXPIRED
  deriving DecidableEq, Repr

/-- `Product` (`ProductsPage.tsx`); `price` is display-only (`string | number`),
kept as a string. -/
structure Product where
  id : String
  name : String
  price : String
  availableStock : Int
  deriving DecidableEq, Repr

/-- `Reservation` as the client sees it (`ProductsPage.tsx`); the optional nested
`product` snapshot is display-only and omitted. -/
structure Reservation where
  id : String
  productId : String
  quantity : Int
  status : RStatus
  expiresAt : String
  createdAt : String
  deriving DecidableEq, Repr

/-- `activeReservations` (`ProductsPage.tsx`, both versions):
`reservations.filter(r => r.status === "ACTIVE")`. -/
def activeReservations (rs : List Reservation) : List Reservation :=
  rs.filter (fun r => r.status == .ACTIVE)

/-- `nextExpirationIso`, first version (`ProductsPage.tsx` lines 268-274):
`undefined` when there is no active reservation, otherwise the ISO string of
`Math.max(...activeReservations.map(r => new Date(r.expiresAt).getTime()))`. -/
def nextExpirationIsoMax (parseT : String → Int) (toIso : Int → String)
    (active : List Reservation) : Option String :=
  match active.map (fun r => parseT r.expiresAt) with
  | [] => none
  | t :: ts => some (toIso (ts.foldl max t))

/-- `nextExpirationIso`, second version (`ProductsPage.tsx` lines 960-966): same with
`Math.min`. -/
def nextExpirationIsoMin (parseT : String → Int) (toIso : Int → String)
    (active : List Reservation) : Option String :=
  match active.map (fun r => parseT r.expiresAt) with
  | [] => none
  | t :: ts => some (toIso (ts.foldl min t))

/-- The timer target the page actually displays: `nextExpirationIso` computed from
`activeReservations` of the current `reservations` state. -/
def nextExpirationOfState (parseT : String → Int) (toIso : Int → String)
    (rs : List Reservation) : Option String :=
  nextExpirationIsoMax parseT toIso (activeReservations rs)

/-! ## Helper lemmas -/

theorem tickNext_eq_max (target now : Int) : tickNext target now = max (target - now) 0 := by
  unfold tickNext
  rcases le_total (target - now) 0 with h | h
  · rw [if_neg (by omega), max_eq_right h]
  · rcases eq_or_lt_of_le h with h0 | h0
    · rw [if_neg (by omega), max_eq_left h]
      omega
    · rw [if_pos h0, max_eq_left h]

theorem tickNext_nonneg (target now : Int) : 0 ≤ tickNext target now := by
  unfold tickNext
  split <;> omega

theorem fireCount_eq_zero (target : Int) (times : List Int)
    (h : ∀ t ∈ times, target ≤ t) (l : Int) (hl : l ≤ 0) :
    fireCount target l times = 0 := by
  induction times generalizing l with
  | nil => rfl
  | cons t ts ih =>
    have ht : target ≤ t := h t (List.mem_cons_self t ts)
    have hnext : tickNext target t = 0 := by
      unfold tickNext
      rw [if_neg (by omega)]
    rw [fireCount, if_neg (by omega), hnext]
    rw [ih (fun s hs => h s (List.mem_cons_of_mem t hs)) 0 le_rfl]

theorem fireCount_le_one (target l : Int) (times : List Int)
    (h : List.Pairwise (· ≤ ·) times) : fireCount target l times ≤ 1 := by
  induction times generalizing l with
  | nil => exact Nat.zero_le 1
  | cons t ts ih =>
    rw [List.pairwise_cons] at h
    rw [fireCount]
    by_cases hf : 0 < l ∧ tickNext target t = 0
    · rw [if_pos hf]
      have htle : target ≤ t := by
        have := hf.2
        unfold tickNext at this
        by_contra hcon
        rw [if_pos (by omega)] at this
        omega
      have : fireCount target (tickNext target t) ts = 0 := by
        rw [hf.2]
        exact fireCount_eq_zero target ts (fun s hs => le_trans htle (h.1 s hs)) 0 le_rfl
      omega
    · rw [if_neg hf]
      simpa using ih (tickNext target t) h.2

theorem foldl_max_const (l : List Int) (x : Int) (h : ∀ y ∈ l, y = x) :
    l.foldl max x = x := by
  induction l with
  | nil => rfl
  | cons y ys ih =>
    have hy : y = x := h y (List.mem_cons_self y ys)
    rw [List.foldl_cons, hy, max_self]
    exact ih (fun z hz => h z (List.mem_cons_of_mem y hz))

theorem foldl_min_const (l : List Int) (x : Int) (h : ∀ y ∈ l, y = x) :
    l.foldl min x = x := by
  induction l with
  | nil => rfl
  | cons y ys ih =>
    have hy : y = x := h y (List.mem_cons_self y ys)
    rw [List.foldl_cons, hy, min_self]
    exact ih (fun z hz => h z (List.mem_cons_of_mem y hz))

/-! ## Claim theorems: the countdown hook -/

/-- C2 (amended): for every defined **non-empty** `expiresAt` string and every tick
time `now`, the `remainingMs` value produced by `useReservationTimer` equals
`max(parse(expiresAt) - now, 0)` — never negative — and when `expiresAt` is
`undefined` the value is `null` and both `mm` and `ss` render as `"--"`. -/
theorem useReservationTimer_remaining_spec (parseT : String → Int) (s : String)
    (now : Int) (hs : s ≠ "") :
    remainingForExpiresAt parseT (some s) now = some (max (parseT s - now) 0) ∧
    (∀ r : Int, remainingForExpiresAt parseT (some s) now = some r → 0 ≤ r) ∧
    remainingForExpiresAt parseT none now = none ∧
    timerMM none = "--" ∧ timerSS none = "--" := by
  refine ⟨?_, ?_, rfl, rfl, rfl⟩
  · simp [remainingForExpiresAt, hs, tickNext_eq_max]
  · intro r hr
    simp [remainingForExpiresAt, hs] at hr
    rw [← hr]
    exact tickNext_nonneg (parseT s) now

/-- C2, counterexample to the claim as stated: the empty string is a defined
`expiresAt` string, yet the hook's `if (!expiresAt)` guard treats it as absent
(JS falsiness) and stores `null` rather than `max(parse(expiresAt) - now, 0)`. -/
theorem useReservationTimer_remaining_cex :
    remainingForExpiresAt (fun _ => 0) (some "") 0 ≠ some (max ((0:Int) - 0) 0) := by
  simp [remainingForExpiresAt]

/-- Witness for C2's theorem at a concrete input. -/
theorem useReservationTimer_remaining_spec_witness :
    remainingForExpiresAt (fun _ => 120000) (some "2026-01-01T00:02:00.000Z") 0 =
      some 120000 := by
  have h :=
    (useReservationTimer_remaining_spec (fun _ => 120000) "2026-01-01T00:02:00.000Z" 0
      (by decide)).1
  simpa using h

/-- C10: within one effect lifetime of `useReservationTimer` (fixed `expiresAt`, so a
fixed `target`, and tick times that move forward), `onElapsed` fires at most once, and
never fires at all when the deadline is already past at the moment the effect starts
(`t0` is the time at which `last` is initialised). -/
theorem useReservationTimer_onElapsed_once (target t0 : Int) (times : List Int)
    (h : List.Pairwise (· ≤ ·) (t0 :: times)) :
    fireCount target (max (target - t0) 0) times ≤ 1 ∧
    (target ≤ t0 → fireCount target (max (target - t0) 0) times = 0) := by
  rw [List.pairwise_cons] at h
  refine ⟨fireCount_le_one target _ times h.2, fun hp => ?_⟩
  have h0 : max (target - t0) 0 = 0 := max_eq_right (by omega)
  rw [h0]
  exact fireCount_eq_zero target times (fun t ht => le_trans hp (h.1 t ht)) 0 le_rfl

/-- Witness for C10 at a concrete run: deadline 5, effect start 0, ticks at 3, 6, 9. -/
theorem useReservationTimer_onElapsed_once_witness :
    fireCount 5 (max ((5:Int) - 0) 0) [3, 6, 9] ≤ 1 ∧
    fireCount 5 (max ((5:Int) - 0) 0) [3, 6, 9] = 1 :=
  ⟨(useReservationTimer_onElapsed_once 5 0 [3, 6, 9] (by decide)).1, by decide⟩

/-! ## Claim theorems: the displayed timer target -/

/-- C4: under the global-window policy — all of the user's active reservations carry
the same `expiresAt` — the max-based `nextExpirationIso` of the first `ProductsPage`
version and the min-based one of the second version compute the same timer target on
every non-empty active list, and both are `undefined` on the empty list. -/
theorem nextExpirationIso_max_eq_min (parseT : String → Int) (toIso : Int → String)
    (active : List Reservation) (e : String) (h : ∀ r ∈ active, r.expiresAt = e) :
    nextExpirationIsoMax parseT toIso active = nextExpirationIsoMin parseT toIso active ∧
    nextExpirationIsoMax parseT toIso [] = none ∧
    nextExpirationIsoMin parseT toIso [] = none := by
  refine ⟨?_, rfl, rfl⟩
  cases active with
  | nil => rfl
  | cons r rs =>
    have hr : r.expiresAt = e := h r (List.mem_cons_self r rs)
    have hmap : ∀ y ∈ rs.map (fun x => parseT x.expiresAt), y = parseT e := by
      intro y hy
      rcases List.mem_map.mp hy with ⟨x, hx, rfl⟩
      rw [h x (List.mem_cons_of_mem r hx)]
    simp only [nextExpirationIsoMax, nextExpirationIsoMin, List.map_cons, hr]
    rw [foldl_max_const _ _ hmap, foldl_min_const _ _ hmap]

/-- Sample reservations used by concrete witnesses. -/
def sampleActiveRes : Reservation :=
  ⟨"r1", "p1", 2, .ACTIVE, "2026-01-01T00:02:00.000Z", "2026-01-01T00:00:00.000Z"⟩

/-- A second active sample reservation with the same `expiresAt`. -/
def sampleActiveRes2 : Reservation :=
  ⟨"r2", "p2", 1, .ACTIVE, "2026-01-01T00:02:00.000Z", "2026-01-01T00:00:30.000Z"⟩

/-- A terminal (completed) sample reservation. -/
def sampleCompletedRes : Reservation :=
  ⟨"r3", "p3", 1, .COMPLETED, "2026-01-01T00:01:00.000Z", "2025-12-31T23:59:00.000Z"⟩

/-- Witness for C4 on a concrete active list whose members share one `expiresAt`. -/
theorem nextExpirationIso_max_eq_min_witness :
    nextExpirationIsoMax (fun s => (s.length : Int)) (fun _ => "iso")
        [sampleActiveRes, sampleActiveRes2] =
      nextExpirationIsoMin (fun s => (s.length : Int)) (fun _ => "iso")
        [sampleActiveRes, sampleActiveRes2] :=
  (nextExpirationIso_max_eq_min (fun s => (s.length : Int)) (fun _ => "iso")
    [sampleActiveRes, sampleActiveRes2] "2026-01-01T00:02:00.000Z" (by decide)).1

/-- C7: the displayed countdown target is computed exclusively from reservations with
status `ACTIVE`: every member of `activeReservations` is `ACTIVE`, and deleting a
terminal reservation from anywhere in the `reservations` state leaves the timer
target unchanged — a terminal reservation's `expiresAt` never reaches the clock
comparison. -/
theorem nextExpiration_ignores_terminal (parseT : String → Int) (toIso : Int → String)
    (l1 l2 : List Reservation) (r : Reservation) (h : r.status ≠ .ACTIVE) :
    (∀ x ∈ activeReservations (l1 ++ r :: l2), x.status = .ACTIVE) ∧
    nextExpirationOfState parseT toIso (l1 ++ r :: l2) =
      nextExpirationOfState parseT toIso (l1 ++ l2) := by
  constructor
  · intro x hx
    have := (List.mem_filter.mp hx).2
    simpa using this
  · have hb : (r.status == RStatus.ACTIVE) = false := by
      simpa using h
    simp [nextExpirationOfState, activeReservations, List.filter_append,
      List.filter_cons, hb]

/-- Witness for C7: a completed reservation inserted between two active ones does not
change the timer target. -/
theorem nextExpiration_ignores_terminal_witness :
    nextExpirationOfState (fun s => (s.length : Int)) (fun _ => "iso")
        ([sampleActiveRes] ++ sampleCompletedRes :: [sampleActiveRes2]) =
      nextExpirationOfState (fun s => (s.length : Int)) (fun _ => "iso")
        ([sampleActiveRes] ++ [sampleActiveRes2]) :=
  (nextExpiration_ignores_terminal (fun s => (s.length : Int)) (fun _ => "iso")
    [sampleActiveRes] [sampleActiveRes2] sampleCompletedRes (by decide)).2

/-! ## `ProductsPage` state and handlers (first version, lines 148-711) -/

/-- `ToastType` (`ProductsPage.tsx`). -/
inductive ToastType where
  | success
  | error
  | info
  deriving DecidableEq, Repr

/-- `Toast` (`ProductsPage.tsx`); the source field `type` is rendered as `kind`. -/
structure Toast where
  id : Nat
  kind : ToastType
  message : String
  deriving DecidableEq, Repr

/-- The `useState` cells of `ProductsPage` that the claims speak about. -/
structure PageState where
  userId : Option String
  products : List Product
  reservations : List Reservation
  selectedProductId : Option String
  quantity : Int
  paymentModalReservation : Option Reservation
  toasts : List Toast
  toastCounter : Nat
  deriving DecidableEq, Repr

/-- `addToast` (`ProductsPage.tsx` lines 177-188): bumps the counter, computes
`newId = toastCounter + 1` from the captured counter, and appends the toast.  The
delayed removal 3000 ms later is a timer effect outside these state equations. -/
def addToast (st : PageState) (ty : ToastType) (msg : String) : PageState :=
  { st with
    toastCounter := st.toastCounter + 1,
    toasts := st.toasts ++ [⟨st.toastCounter + 1, ty, msg⟩] }

/-- JS `String.prototype.includes`. -/
def strIncludes (s sub : String) : Bool :=
  decide (List.IsInfix sub.toList s.toList)

/-- The `catch` branch of `handleReserve` (`ProductsPage.tsx` lines 322-331) applied
to the state as of the failed `POST /reservations`: `fetchJSON` (`src/lib/api.ts`)
always throws an `Error` carrying a string message, so `msg` is that string. -/
def handleReserveFailure (st : PageState) (errMsg : String) : PageState :=
  if strIncludes errMsg "Not enough stock" then
    addToast st .error "Cannot reserve more than available stock."
  else
    addToast st .error errMsg

/-- The request body `handleReserve` sends (`ProductsPage.tsx` lines 291-314), or
`none` when one of its guards returns early instead. -/
structure ReserveRequest where
  productId : String
  quantity : Int
  userId : String
  deriving DecidableEq, Repr

/-- `handleReserve` up to the `POST` (`ProductsPage.tsx` lines 291-314): guard on
`userId`, on `selectedProduct = products.find(p => p.id === selectedProductId)`, and
on `quantity <= 0`; each failing guard adds an error toast and sends nothing. -/
def handleReserveRequest (st : PageState) : Option ReserveRequest :=
  match st.userId with
  | none => none
  | some uid =>
    match st.selectedProductId with
    | none => none
    | some sid =>
      match st.products.find? (fun p => p.id == sid) with
      | none => none
      | some p => if st.quantity ≤ 0 then none else some ⟨p.id, st.quantity, uid⟩

/-- Events through which the `quantity` state cell evolves: the number input's
`onChange` (`ProductsPage.tsx` lines 671-681, `setQuantity(Math.max(1, Number(v)))`)
and `clearSelection` (lines 406-409, `setQuantity(1)`); no other call site sets it. -/
inductive QtyEvent where
  | inputChange (v : Int)
  | clearSel
  deriving Repr

/-- One `quantity` state transition; both writes ignore the previous value. -/
def qtyStep (_q : Int) (e : QtyEvent) : Int :=
  match e with
  | .inputChange v => max 1 v
  | .clearSel => 1

/-- The `quantity` cell after a sequence of events, from its initial `useState(1)`. -/
def qtyAfter (events : List QtyEvent) : Int :=
  events.foldl qtyStep 1

/-! ## Claim theorems: reserve handler -/

/-- C3: every reachable `quantity` state is `≥ 1` (initial value 1, the input handler
stores `max(1, v)`, clearing restores 1), and independently `handleReserve` never
emits a request body with `quantity ≤ 0`; hence every issued create-or-extend request
satisfies the engine precondition `quantity > 0`. -/
theorem handleReserve_quantity_positive :
    (∀ events : List QtyEvent, 1 ≤ qtyAfter events) ∧
    (∀ (st : PageState) (req : ReserveRequest),
      handleReserveRequest st = some req → 1 ≤ req.quantity) := by
  constructor
  · have key : ∀ (evs : List QtyEvent) (q : Int), 1 ≤ q → 1 ≤ evs.foldl qtyStep q := by
      intro evs
      induction evs with
      | nil => intro q hq; simpa using hq
      | cons e es ih =>
        intro q hq
        rw [List.foldl_cons]
        apply ih
        cases e with
        | inputChange v => exact le_max_left 1 v
        | clearSel => exact le_rfl
    intro events
    exact key events 1 le_rfl
  · intro st req h
    unfold handleReserveRequest at h
    split at h
    · exact absurd h (by simp)
    split at h
    · exact absurd h (by simp)
    split at h
    · exact absurd h (by simp)
    split at h
    · exact absurd h (by simp)
    have hreq : req.quantity = st.quantity := by
      have h2 := Option.some_inj.mp h
      rw [← h2]
    omega

/-- A concrete page state from which `handleReserve` does send a request. -/
def sampleState : PageState :=
  ⟨some "u-1", [⟨"p1", "Lip Gloss", "19.99", 5⟩], [], some "p1", 2, none, [], 0⟩

/-- Witness for C3: on `sampleState` the emitted request has quantity `2 ≥ 1`. -/
theorem handleReserve_quantity_positive_witness :
    1 ≤ (ReserveRequest.mk "p1" 2 "u-1").quantity :=
  handleReserve_quantity_positive.2 sampleState ⟨"p1", 2, "u-1"⟩ (by decide)

/-- C5: when the `POST /reservations` inside `handleReserve` fails, exactly one error
toast is appended — with message `"Cannot reserve more than available stock."` when
the error message contains `"Not enough stock"`, and with the error's own message
otherwise — and the `products` and `reservations` state are left unchanged, so no
partial reservation is ever reflected in the UI. -/
theorem handleReserve_failure_spec (st : PageState) (errMsg : String) :
    (handleReserveFailure st errMsg).products = st.products ∧
    (handleReserveFailure st errMsg).reservations = st.reservations ∧
    (handleReserveFailure st errMsg).toasts =
      st.toasts ++ [⟨st.toastCounter + 1, .error,
        if strIncludes errMsg "Not enough stock" then
          "Cannot reserve more than available stock."
        else errMsg⟩] := by
  by_cases hm : strIncludes errMsg "Not enough stock" = true
  · simp [handleReserveFailure, addToast, hm]
  · simp [handleReserveFailure, addToast, hm]

/-! ## Claim theorems: payment modal -/

/-- Events through which the `paymentModalReservation` cell evolves: the guarded
`openPaymentModal` (`ProductsPage.tsx` lines 337-340), the modal's `onClose`
(line 447), the success path of `handleConfirmPayment` (line 361), its failure path
(which leaves the cell alone), and every other state update of the page (none of
which touches the cell). -/
inductive ModalEvent where
  | openModal (r : Reservation)
  | closeModal
  | confirmSuccess
  | confirmFailure
  | otherUpdate
  deriving Repr

/-- One `paymentModalReservation` transition. -/
def modalStep (m : Option Reservation) (e : ModalEvent) : Option Reservation :=
  match e with
  | .openModal r => if r.status == .ACTIVE then some r else m
  | .closeModal => none
  | .confirmSuccess => none
  | .confirmFailure => m
  | .otherUpdate => m

/-- The `paymentModalReservation` cell after a sequence of events, from `useState(null)`. -/
def modalAfter (evs : List ModalEvent) : Option Reservation :=
  evs.foldl modalStep none

/-- The reservation id `handleConfirmPayment` would `POST .../complete` for
(`ProductsPage.tsx` lines 342-349): nothing when the modal is closed. -/
def handleConfirmPaymentRequest (m : Option Reservation) : Option String :=
  match m with
  | none => none
  | some r => some r.id

/-- C6: in every reachable state, a non-null `paymentModalReservation` holds a
reservation whose status was `ACTIVE` when the modal was opened (`openPaymentModal`
drops terminal reservations), and the complete request `handleConfirmPayment` issues
therefore always targets that active snapshot. -/
theorem paymentModal_active_invariant (evs : List ModalEvent) (r : Reservation)
    (h : modalAfter evs = some r) :
    r.status = .ACTIVE ∧ handleConfirmPaymentRequest (modalAfter evs) = some r.id := by
  have key : ∀ (l : List ModalEvent) (m : Option Reservation),
      (∀ x : Reservation, m = some x → x.status = .ACTIVE) →
      ∀ x : Reservation, l.foldl modalStep m = some x → x.status = .ACTIVE := by
    intro l
    induction l with
    | nil => intro m hm x hx; exact hm x hx
    | cons e es ih =>
      intro m hm x hx
      rw [List.foldl_cons] at hx
      refine ih (modalStep m e) ?_ x hx
      intro y hy
      cases e with
      | openModal r' =>
        simp only [modalStep] at hy
        by_cases hr : (r'.status == RStatus.ACTIVE) = true
        · rw [if_pos hr] at hy
          cases Option.some_inj.mp hy
          simpa using hr
        · rw [if_neg hr] at hy
          exact hm y hy
      | closeModal => exact absurd hy (by simp [modalStep])
      | confirmSuccess => exact absurd hy (by simp [modalStep])
      | confirmFailure => exact hm y hy
      | otherUpdate => exact hm y hy
  refine ⟨key evs none (by simp) r h, ?_⟩
  rw [h]
  rfl

/-- Witness for C6: after opening the modal on an active reservation, the stored
snapshot is active and the complete request targets its id. -/
theorem paymentModal_active_invariant_witness :
    sampleActiveRes.status = .ACTIVE ∧
    handleConfirmPaymentRequest (modalAfter [.openModal sampleActiveRes]) =
      some sampleActiveRes.id :=
  paymentModal_active_invariant [.openModal sampleActiveRes] sampleActiveRes (by decide)

/-! ## `handleProductsUpdated` (`ProductsPage.tsx` lines 232-250) -/

/-- One entry of the `products:updated` socket payload. -/
structure StockUpdate where
  id : String
  availableStock : Int
  deriving DecidableEq, Repr

/-- JS `Map.prototype.set` on an insertion-ordered association list: replacing an
existing key keeps its position, a new key is appended. -/
def mapSet (m : List (String × Product)) (k : String) (v : Product) :
    List (String × Product) :=
  if m.any (fun kv => kv.1 == k) then
    m.map (fun kv => if kv.1 == k then (k, v) else kv)
  else
    m ++ [(k, v)]

/-- JS `Map.prototype.get`. -/
def mapGet (m : List (String × Product)) (k : String) : Option Product :=
  (m.find? (fun kv => kv.1 == k)).map (fun kv => kv.2)

/-- The body of the `for (const u of updates)` loop of `handleProductsUpdated`. -/
def updatesStep (m : List (String × Product)) (u : StockUpdate) :
    List (String × Product) :=
  match mapGet m u.id with
  | some existing => mapSet m u.id { existing with availableStock := u.availableStock }
  | none => m

/-- `handleProductsUpdated` (`ProductsPage.tsx` lines 232-250): returns `prev` when it
is empty, else builds `new Map(prev.map(p => [p.id, p]))`, patches `availableStock`
for every update whose id is present, and returns `Array.from(map.values())`. -/
def handleProductsUpdated (updates : List StockUpdate) (prev : List Product) :
    List Product :=
  if prev.isEmpty then prev
  else
    let m0 := prev.foldl (fun m p => mapSet m p.id p) []
    let m1 := updates.foldl updatesStep m0
    m1.map (fun kv => kv.2)

/-- Effect of one stock update on one product. -/
def upd1 (u : StockUpdate) (p : Product) : Product :=
  if u.id = p.id then { p with availableStock := u.availableStock } else p

/-- Cumulative effect of an update list on one product (later updates win). -/
def applyUpdates (us : List StockUpdate) (p : Product) : Product :=
  us.foldl (fun q u => upd1 u q) p

theorem upd1_frame (u : StockUpdate) (p : Product) :
    (upd1 u p).id = p.id ∧ (upd1 u p).name = p.name ∧ (upd1 u p).price = p.price := by
  unfold upd1
  split <;> exact ⟨rfl, rfl, rfl⟩

theorem applyUpdates_frame (us : List StockUpdate) (p : Product) :
    (applyUpdates us p).id = p.id ∧ (applyUpdates us p).name = p.name ∧
    (applyUpdates us p).price = p.price := by
  unfold applyUpdates
  induction us generalizing p with
  | nil => exact ⟨rfl, rfl, rfl⟩
  | cons u us ih =>
    rw [List.foldl_cons]
    have h1 := upd1_frame u p
    have h2 := ih (upd1 u p)
    exact ⟨h2.1.trans h1.1, h2.2.1.trans h1.2.1, h2.2.2.trans h1.2.2⟩

theorem applyUpdates_of_not_mem (us : List StockUpdate) (p : Product)
    (h : ∀ u ∈ us, u.id ≠ p.id) : applyUpdates us p = p := by
  unfold applyUpdates
  induction us with
  | nil => rfl
  | cons u us ih =>
    rw [List.foldl_cons]
    have h1 : upd1 u p = p := by
      unfold upd1
      rw [if_neg (h u (List.mem_cons_self u us))]
    rw [h1]
    exact ih (fun v hv => h v (List.mem_cons_of_mem u hv))

theorem foldl_mapSet_eq (ps : List Product) (acc : List (String × Product))
    (hdisj : ∀ p ∈ ps, ∀ kv ∈ acc, kv.1 ≠ p.id)
    (hnd : (ps.map (fun p => p.id)).Nodup) :
    ps.foldl (fun m p => mapSet m p.id p) acc = acc ++ ps.map (fun p => (p.id, p)) := by
  induction ps generalizing acc with
  | nil => simp
  | cons p ps ih =>
    rw [List.map_cons, List.nodup_cons] at hnd
    rw [List.foldl_cons]
    have hany : (acc.any (fun kv => kv.1 == p.id)) = false := by
      rw [List.any_eq_false]
      intro kv hkv
      simpa using hdisj p (List.mem_cons_self p ps) kv hkv
    have hset : mapSet acc p.id p = acc ++ [(p.id, p)] := by
      unfold mapSet
      rw [hany]
      simp
    have hdisj2 : ∀ q ∈ ps, ∀ kv ∈ acc ++ [(p.id, p)], kv.1 ≠ q.id := by
      intro q hq kv hkv
      rcases List.mem_append.mp hkv with h1 | h1
      · exact hdisj q (List.mem_cons_of_mem p hq) kv h1
      · have hkv2 : kv = (p.id, p) := by simpa using h1
        rw [hkv2]
        intro hcon
        have hpq : p.id = q.id := hcon
        apply hnd.1
        rw [hpq]
        exact List.mem_map_of_mem (fun r => r.id) hq
    rw [hset, ih (acc ++ [(p.id, p)]) hdisj2 hnd.2]
    simp

theorem mapGet_entries (prev : List Product) (g : Product → Product) (k : String) :
    mapGet (prev.map (fun p => (p.id, g p))) k =
      (prev.find? (fun p => p.id == k)).map g := by
  unfold mapGet
  rw [List.find?_map]
  rw [Option.map_map]
  rfl

theorem updatesStep_entries (prev : List Product)
    (hnd : (prev.map (fun p => p.id)).Nodup)
    (g : Product → Product) (hg : ∀ p, (g p).id = p.id) (u : StockUpdate) :
    updatesStep (prev.map (fun p => (p.id, g p))) u =
      prev.map (fun p => (p.id, upd1 u (g p))) := by
  unfold updatesStep
  rw [mapGet_entries prev g u.id]
  rcases hf : prev.find? (fun p => p.id == u.id) with _ | p0
  · rw [hf]
    show prev.map (fun p => (p.id, g p)) = prev.map (fun p => (p.id, upd1 u (g p)))
    apply List.map_congr_left
    intro a ha
    have hne : ¬(a.id == u.id) = true := by
      simpa using List.find?_eq_none.mp hf a ha
    have hne2 : u.id ≠ (g a).id := by
      rw [hg a]
      intro hcon
      exact hne (by simp [hcon.symm])
    rw [upd1, if_neg hne2]
  · rw [hf]
    have hp0b := List.find?_some hf
    have hp0mem : p0 ∈ prev := List.mem_of_find?_eq_some hf
    have hp0id : p0.id = u.id := by simpa using hp0b
    show mapSet (prev.map (fun p => (p.id, g p))) u.id
        { g p0 with availableStock := u.availableStock } =
      prev.map (fun p => (p.id, upd1 u (g p)))
    unfold mapSet
    have hany : ((prev.map (fun p => (p.id, g p))).any (fun kv => kv.1 == u.id)) = true := by
      rw [List.any_eq_true]
      exact ⟨(p0.id, g p0), List.mem_map_of_mem _ hp0mem, by simpa using hp0id⟩
    rw [hany, if_pos rfl, List.map_map]
    apply List.map_congr_left
    intro a ha
    show (if (a.id == u.id) = true
        then (u.id, { g p0 with availableStock := u.availableStock })
        else (a.id, g a)) = (a.id, upd1 u (g a))
    by_cases hcase : a.id = u.id
    · have ha0 : a = p0 :=
        List.inj_on_of_nodup_map hnd ha hp0mem (hcase.trans hp0id.symm)
    
      rw [if_pos (by simpa using hcase), upd1,
        if_pos (by rw [hg a]; exact hcase.symm), ha0, hp0id]
    · rw [if_neg (by simpa using hcase), upd1,
        if_neg (by rw [hg a]; exact fun hcon => hcase hcon.symm)]

theorem foldl_updatesStep_eq (prev : List Product)
    (hnd : (prev.map (fun p => p.id)).Nodup) (us : List StockUpdate) :
    ∀ g : Product → Product, (∀ p, (g p).id = p.id) →
      us.foldl updatesStep (prev.map (fun p => (p.id, g p))) =
        prev.map (fun p => (p.id, us.foldl (fun q u => upd1 u q) (g p))) := by
  induction us with
  | nil => intro g hg; rfl
  | cons u us ih =>
    intro g hg
    rw [List.foldl_cons, updatesStep_entries prev hnd g hg u]
    have hg2 : ∀ p, (upd1 u (g p)).id = p.id :=
      fun p => (upd1_frame u (g p)).1.trans (hg p)
    rw [ih (fun p => upd1 u (g p)) hg2]
    rfl

/-- C8 (amended): provided the prior products list has pairwise-distinct ids,
`handleProductsUpdated` equals the pointwise patch `prev.map (applyUpdates updates)`
— so products keep their position and count, only `availableStock` ever changes
(`id`, `name`, `price` are untouched), products with no matching update are returned
unchanged, and updates for absent ids are ignored. -/
theorem handleProductsUpdated_frame (updates : List StockUpdate) (prev : List Product)
    (hnd : (prev.map (fun p => p.id)).Nodup) :
    handleProductsUpdated updates prev = prev.map (applyUpdates updates) ∧
    (∀ p : Product, (applyUpdates updates p).id = p.id ∧
      (applyUpdates updates p).name = p.name ∧
      (applyUpdates updates p).price = p.price) ∧
    (∀ p : Product, (∀ u ∈ updates, u.id ≠ p.id) → applyUpdates updates p = p) := by
  refine ⟨?_, fun p => applyUpdates_frame updates p,
    fun p h => applyUpdates_of_not_mem updates p h⟩
  unfold handleProductsUpdated
  by_cases hemp : prev.isEmpty
  · rw [if_pos hemp]
    have hnil : prev = [] := by
      cases prev with
      | nil => rfl
      | cons a l => exact absurd hemp (by simp)
    rw [hnil]
    rfl
  · rw [if_neg hemp]
    show (updates.foldl updatesStep
        (prev.foldl (fun m p => mapSet m p.id p) [])).map (fun kv => kv.2) =
      prev.map (applyUpdates updates)
    rw [foldl_mapSet_eq prev [] (by simp) hnd, List.nil_append]
    have hmap : prev.map (fun p => (p.id, p)) =
        prev.map (fun p => (p.id, (fun q => q) p)) := rfl
    rw [hmap, foldl_updatesStep_eq prev hnd updates (fun q => q) (fun _ => rfl),
      List.map_map]
    rfl

/-- A first product with the repeated id used by C8's counterexample. -/
def dupProdA : Product := ⟨"a", "First", "1.00", 1⟩

/-- A second, different product carrying the same id. -/
def dupProdB : Product := ⟨"a", "Second", "2.00", 2⟩

/-- C8, counterexample to the claim as stated: on a prior list with a repeated id the
`Map` construction keeps only the last product for that id, so a product is removed
(and nothing else happened — the update list is empty). -/
theorem handleProductsUpdated_cex :
    handleProductsUpdated [] [dupProdA, dupProdB] = [dupProdB] ∧
    handleProductsUpdated [] [dupProdA, dupProdB] ≠ [dupProdA, dupProdB] := by
  exact ⟨rfl, by decide⟩

/-- Sample catalog entry 1 for C8's witness. -/
def wProd1 : Product := ⟨"p1", "Serum", "29.99", 5⟩

/-- Sample catalog entry 2 for C8's witness. -/
def wProd2 : Product := ⟨"p2", "Mask", "9.99", 3⟩

/-- Witness for C8's amended theorem on a distinct-id catalog with one update. -/
theorem handleProductsUpdated_frame_witness :
    handleProductsUpdated [⟨"p1", 4⟩] [wProd1, wProd2] =
      [wProd1, wProd2].map (applyUpdates [⟨"p1", 4⟩]) :=
  (handleProductsUpdated_frame [⟨"p1", 4⟩] [wProd1, wProd2] (by decide)).1

/-! ## `getOrCreateUserId` (`src/lib/user.ts` and the multi-store variant) -/

/-- Simple version (`src/lib/user.ts` lines 3-12): read `localStorage`, generate and
persist when the read is JS-falsy (`null` or the empty string).  `isBrowser` models
`typeof window !== "undefined"`, `fresh` the `uuid()` value, and the `Option String`
the `flashsale_userId` slot of `localStorage`.  Returns the id and the updated slot. -/
def getOrCreateUserIdSimple (isBrowser : Bool) (fresh : String)
    (store : Option String) : String × Option String :=
  if !isBrowser then ("", store)
  else
    match store with
    | some s => if s = "" then (fresh, some fresh) else (s, store)
    | none => (fresh, some fresh)

/-- The three persistence slots of the multi-store version
(`src/unnamed/part_000`): `localStorage`, `sessionStorage` and the
`flash_sale_user_id` cookie; `none` models an absent entry. -/
structure AnonStores where
  localStorage : Option String
  sessionStorage : Option String
  cookie : Option String
  deriving DecidableEq, Repr

/-- JS truthiness filter on a `string | null` value: keeps only a non-empty string,
as used by `fromLocal || fromSession || fromCookie || undefined`. -/
def truthyOpt (o : Option String) : Option String :=
  match o with
  | some s => if s = "" then none else some s
  | none => none

/-- Multi-store version (`src/unnamed/part_000` lines 104-122): take the first truthy
of localStorage, sessionStorage, cookie; fall back to `generateId()` (`fresh`); then
sync the result into all three stores. -/
def getOrCreateUserIdMulti (isBrowser : Bool) (fresh : String)
    (st : AnonStores) : String × AnonStores :=
  if !isBrowser then ("", st)
  else
    let existing :=
      match truthyOpt st.localStorage with
      | some s => some s
      | none =>
        match truthyOpt st.sessionStorage with
        | some s => some s
        | none => truthyOpt st.cookie
    let id := existing.getD fresh
    (id, ⟨some id, some id, some id⟩)

theorem truthyOpt_cases (o : Option String) :
    truthyOpt o = none ∨ ∃ s, truthyOpt o = some s ∧ s ≠ "" := by
  match o with
  | none => exact Or.inl rfl
  | some s =>
    by_cases hs : s = ""
    · exact Or.inl (by simp [truthyOpt, hs])
    · exact Or.inr ⟨s, by simp [truthyOpt, hs], hs⟩

theorem getOrCreateUserIdMulti_out (fresh : String) (st : AnonStores)
    (hf : fresh ≠ "") :
    ∃ id, id ≠ "" ∧
      getOrCreateUserIdMulti true fresh st = (id, ⟨some id, some id, some id⟩) := by
  unfold getOrCreateUserIdMulti
  rcases truthyOpt_cases st.localStorage with h1 | ⟨s1, hs1, hne1⟩
  · rcases truthyOpt_cases st.sessionStorage with h2 | ⟨s2, hs2, hne2⟩
    · rcases truthyOpt_cases st.cookie with h3 | ⟨s3, hs3, hne3⟩
      · exact ⟨fresh, hf, by simp [h1, h2, h3]⟩
      · exact ⟨s3, hne3, by simp [h1, h2, hs3]⟩
    · exact ⟨s2, hne2, by simp [h1, hs2]⟩
  · exact ⟨s1, hne1, by simp [hs1]⟩

theorem getOrCreateUserIdMulti_repeat (id fresh2 : String) (hid : id ≠ "") :
    getOrCreateUserIdMulti true fresh2 ⟨some id, some id, some id⟩ =
      (id, ⟨some id, some id, some id⟩) := by
  simp [getOrCreateUserIdMulti, truthyOpt, hid]

/-- C9: `getOrCreateUserId` is idempotent in a browser: two successive calls return
the same id (the `uuid()` drawn for the second call, `fresh2`, is irrelevant because
the first call persisted its result), the stores are unchanged by the second call,
and outside a browser both versions return the empty string and touch no storage.
`fresh1 ≠ ""` reflects that `uuid()` / `generateId()` never return the empty string. -/
theorem getOrCreateUserId_idempotent (fresh1 fresh2 : String)
    (store : Option String) (st : AnonStores) (hf : fresh1 ≠ "") :
    ((getOrCreateUserIdSimple true fresh2
        (getOrCreateUserIdSimple true fresh1 store).2).1 =
      (getOrCreateUserIdSimple true fresh1 store).1 ∧
      (getOrCreateUserIdSimple true fresh2
        (getOrCreateUserIdSimple true fresh1 store).2).2 =
      (getOrCreateUserIdSimple true fresh1 store).2) ∧
    ((getOrCreateUserIdMulti true fresh2
        (getOrCreateUserIdMulti true fresh1 st).2).1 =
      (getOrCreateUserIdMulti true fresh1 st).1 ∧
      (getOrCreateUserIdMulti true fresh2
        (getOrCreateUserIdMulti true fresh1 st).2).2 =
      (getOrCreateUserIdMulti true fresh1 st).2) ∧
    getOrCreateUserIdSimple false fresh1 store = ("", store) ∧
    getOrCreateUserIdMulti false fresh1 st = ("", st) := by
  refine ⟨?_, ?_, rfl, rfl⟩
  · match store with
    | none => simp [getOrCreateUserIdSimple, hf]
    | some s =>
      by_cases hs : s = ""
      · simp [getOrCreateUserIdSimple, hs, hf]
      · simp [getOrCreateUserIdSimple, hs]
  · obtain ⟨id, hid, heq⟩ := getOrCreateUserIdMulti_out fresh1 st hf
    rw [heq]
    constructor
    · show (getOrCreateUserIdMulti true fresh2 ⟨some id, some id, some id⟩).1 = id
      rw [getOrCreateUserIdMulti_repeat id fresh2 hid]
    · show (getOrCreateUserIdMulti true fresh2 ⟨some id, some id, some id⟩).2 =
        ⟨some id, some id, some id⟩
      rw [getOrCreateUserIdMulti_repeat id fresh2 hid]

/-- Witness for C9 at concrete fresh ids and initially empty stores. -/
theorem getOrCreateUserId_idempotent_witness :
    (getOrCreateUserIdSimple true "uuid-2"
        (getOrCreateUserIdSimple true "uuid-1" none).2).1 =
      (getOrCreateUserIdSimple true "uuid-1" none).1 ∧
    getOrCreateUserIdMulti false "uuid-1" ⟨none, none, none⟩ =
      ("", ⟨none, none, none⟩) :=
  ⟨(getOrCreateUserId_idempotent "uuid-1" "uuid-2" none ⟨none, none, none⟩
      (by decide)).1.1,
   (getOrCreateUserId_idempotent "uuid-1" "uuid-2" none ⟨none, none, none⟩
      (by decide)).2.2.2⟩

/-! ## Reservation lifecycle engine (spec-modelled)

The engine itself lives in the backend service and is not part of this repository;
the definitions below are reconstructed from the specification (§3, §4.1-§4.3, §7)
and model a single item, the only case the conservation and no-oversell claims
quantify over.  Concurrency: §5 serialises all operations on one item through the
item row lock, so a concurrent execution of `K` Create/Extend requests is observed
as some sequential ordering of the `K` atomic units; the list argument below is that
ordering. -/

/-- Modelled from the spec: the error taxonomy of §7. -/
inductive EngErr where
  | InsufficientStock
  | NotFound
  | InvalidState
  deriving DecidableEq, Repr

/-- Modelled from the spec: a reservation row (§3) for the single modelled item. -/
structure Rsv where
  id : Nat
  actorId : Nat
  quantity : Nat
  status : RStatus
  expiresAt : Nat
  deriving DecidableEq, Repr

/-- Modelled from the spec: durable state for one item — its `availableQuantity` and
the reservation rows referencing it (§3, §6). -/
structure EngineState where
  avail : Nat
  resvs : List Rsv
  deriving DecidableEq, Repr

/-- Σ of quantities of the currently-ACTIVE reservations (the conservation law's sum,
§3). -/
def activeSum (l : List Rsv) : Nat :=
  ((l.filter (fun r => r.status == .ACTIVE)).map (fun r => r.quantity)).sum

/-- Merge step of §4.3 Create/Extend: increment the quantity of the actor's existing
ACTIVE reservation (at most one exists, by the §3 invariant; the first is updated). -/
def bumpFirst (actor q : Nat) : List Rsv → List Rsv
  | [] => []
  | r :: rs =>
    if r.actorId == actor && r.status == .ACTIVE then
      { r with quantity := r.quantity + q } :: rs
    else
      r :: bumpFirst actor q rs

/-- Global-window step of §4.3 Create/Extend: reset `expiresAt` of every ACTIVE
reservation of this actor to the new deadline. -/
def refreshWindow (actor deadline : Nat) (l : List Rsv) : List Rsv :=
  l.map (fun r =>
    if r.actorId == actor && r.status == .ACTIVE then
      { r with expiresAt := deadline }
    else r)

/-- Modelled from the spec: Create or Extend (§4.3): fail with `InsufficientStock`
and no mutation when `availableQuantity < quantity`; otherwise deduct, merge into the
actor's existing ACTIVE row or create a fresh one (`newId`), and reset the actor's
global window to `now + ttl`. -/
def createOrExtend (now ttl newId actor q : Nat) (s : EngineState) :
    Except EngErr EngineState :=
  if s.avail < q then .error .InsufficientStock
  else
    .ok { avail := s.avail - q,
          resvs := refreshWindow actor (now + ttl)
            (if s.resvs.any (fun r => r.actorId == actor && r.status == .ACTIVE) then
              bumpFirst actor q s.resvs
            else
              s.resvs ++ [⟨newId, actor, q, .ACTIVE, 0⟩]) }

/-- Replace the first row carrying the given id (rows are unique by id in the spec's
store; `find?` + `save` of §4.2 touch exactly that row). -/
def setFirst (rid : Nat) (f : Rsv → Rsv) : List Rsv → List Rsv
  | [] => []
  | r :: rs => if r.id == rid then f r :: rs else r :: setFirst rid f rs

/-- Modelled from the spec: Cancel (§4.3): `NotFound` on a missing id, idempotent
no-op on a terminal row, otherwise restore the quantity and set the row to `EXPIRED`
with `expiresAt = now`. -/
def cancel (now rid : Nat) (s : EngineState) : Except EngErr EngineState :=
  match s.resvs.find? (fun r => r.id == rid) with
  | none => .error .NotFound
  | some r =>
    if r.status = RStatus.ACTIVE then
      .ok { avail := s.avail + r.quantity,
            resvs := setFirst rid
              (fun x => { x with status := .EXPIRED, expiresAt := now }) s.resvs }
    else .ok s

/-- Modelled from the spec: Expire (§4.3): under the row lock re-check
`status == ACTIVE && expiresAt <= now`; if still eligible restore stock and set
`EXPIRED`, else a silent no-op (also on an unknown id). -/
def expire (now rid : Nat) (s : EngineState) : EngineState :=
  match s.resvs.find? (fun r => r.id == rid) with
  | none => s
  | some r =>
    if r.status = RStatus.ACTIVE ∧ r.expiresAt ≤ now then
      { avail := s.avail + r.quantity,
        resvs := setFirst rid (fun x => { x with status := .EXPIRED }) s.resvs }
    else s

/-- One serialised batch of Create/Extend requests of a common quantity `q`: each
list entry is `(newId, actorId)`; returns the final state and the success count. -/
def runRequests (now ttl q : Nat) (reqs : List (Nat × Nat)) (s : EngineState) :
    EngineState × Nat :=
  match reqs with
  | [] => (s, 0)
  | hd :: rest =>
    match createOrExtend now ttl hd.1 hd.2 q s with
    | .ok s2 => ((runRequests now ttl q rest s2).1, (runRequests now ttl q rest s2).2 + 1)
    | .error _ => runRequests now ttl q rest s

/-! ## Engine lemmas -/

theorem activeSum_cons (r : Rsv) (rs : List Rsv) :
    activeSum (r :: rs) =
      (if r.status = RStatus.ACTIVE then r.quantity else 0) + activeSum rs := by
  unfold activeSum
  by_cases h : r.status = RStatus.ACTIVE
  · simp [List.filter_cons, h]
  · simp [List.filter_cons, h]

theorem activeSum_append (l1 l2 : List Rsv) :
    activeSum (l1 ++ l2) = activeSum l1 + activeSum l2 := by
  unfold activeSum
  rw [List.filter_append, List.map_append, List.sum_append]

theorem activeSum_refreshWindow (actor d : Nat) (l : List Rsv) :
    activeSum (refreshWindow actor d l) = activeSum l := by
  induction l with
  | nil => rfl
  | cons r rs ih =>
    unfold refreshWindow at ih ⊢
    rw [List.map_cons, activeSum_cons, activeSum_cons, ih]
    by_cases hc : (r.actorId == actor && r.status == RStatus.ACTIVE) = true
    · rw [if_pos hc]
    · rw [if_neg hc]

theorem activeSum_bumpFirst (actor q : Nat) (l : List Rsv)
    (h : l.any (fun r => r.actorId == actor && r.status == .ACTIVE) = true) :
    activeSum (bumpFirst actor q l) = activeSum l + q := by
  induction l with
  | nil => simp at h
  | cons r rs ih =>
    unfold bumpFirst
    by_cases hr : (r.actorId == actor && r.status == RStatus.ACTIVE) = true
    · rw [if_pos hr]
      have hact : r.status = RStatus.ACTIVE := by
        have h2 := (Bool.and_eq_true _ _ ▸ hr).2
        simpa using h2
      rw [activeSum_cons, activeSum_cons]
      show (if r.status = RStatus.ACTIVE then r.quantity + q else 0) + activeSum rs =
        (if r.status = RStatus.ACTIVE then r.quantity else 0) + activeSum rs + q
      rw [if_pos hact, if_pos hact]
      omega
    · rw [if_neg hr]
      have hrs : rs.any (fun r => r.actorId == actor && r.status == .ACTIVE) = true := by
        rw [List.any_cons] at h
        rcases Bool.or_eq_true _ _ ▸ h with h1 | h1
        · exact absurd h1 hr
        · exact h1
      rw [activeSum_cons, activeSum_cons, ih hrs]
      omega

theorem activeSum_setFirst (rid : Nat) (f : Rsv → Rsv)
    (hstat : ∀ x, (f x).status = RStatus.EXPIRED) (l : List Rsv) (r : Rsv)
    (hfind : l.find? (fun x => x.id == rid) = some r)
    (hact : r.status = RStatus.ACTIVE) :
    activeSum l = activeSum (setFirst rid f l) + r.quantity := by
  induction l with
  | nil => exact absurd hfind (by simp)
  | cons x xs ih =>
    simp only [List.find?_cons] at hfind
    by_cases hx : (x.id == rid) = true
    · rw [hx] at hfind
      have hxr : x = r := Option.some_inj.mp hfind
      unfold setFirst
      rw [if_pos hx, activeSum_cons, activeSum_cons, hstat x]
      rw [hxr, if_pos hact]
      simp
      omega
    · have hxf : (x.id == rid) = false := by simpa using hx
      rw [hxf] at hfind
      unfold setFirst
      rw [if_neg hx, activeSum_cons, activeSum_cons, ih hfind]
      omega

theorem conserv_createOrExtend (N now ttl newId actor q : Nat) (s s2 : EngineState)
    (hc : s.avail + activeSum s.resvs = N)
    (h : createOrExtend now ttl newId actor q s = .ok s2) :
    s2.avail + activeSum s2.resvs = N := by
  unfold createOrExtend at h
  by_cases hlt : s.avail < q
  · rw [if_pos hlt] at h
    exact absurd h (by simp)
  · rw [if_neg hlt] at h
    injection h with h2
    rw [← h2]
    show s.avail - q + activeSum (refreshWindow actor (now + ttl) _) = N
    rw [activeSum_refreshWindow]
    by_cases hany :
        (s.resvs.any (fun r => r.actorId == actor && r.status == .ACTIVE)) = true
    · rw [if_pos hany, activeSum_bumpFirst actor q s.resvs hany]
      omega
    · rw [if_neg hany, activeSum_append, activeSum_cons]
      show s.avail - q + (activeSum s.resvs + (q + activeSum [])) = N
      have hnil : activeSum ([] : List Rsv) = 0 := rfl
      omega

theorem conserv_cancel (N now rid : Nat) (s s2 : EngineState)
    (hc : s.avail + activeSum s.resvs = N)
    (h : cancel now rid s = .ok s2) :
    s2.avail + activeSum s2.resvs = N := by
  unfold cancel at h
  split at h
  · exact absurd h (by simp)
  · rename_i r hfind
    split at h
    · rename_i hact
      injection h with h2
      have ha : s2.avail = s.avail + r.quantity := by rw [← h2]
      have hr2 : s2.resvs = setFirst rid
          (fun x => { x with status := .EXPIRED, expiresAt := now }) s.resvs := by
        rw [← h2]
      rw [ha, hr2]
      have hsum := activeSum_setFirst rid
        (fun x => { x with status := .EXPIRED, expiresAt := now })
        (fun x => rfl) s.resvs r hfind hact
      omega
    · injection h with h2
      rw [← h2]
      exact hc

theorem conserv_expire (N now rid : Nat) (s : EngineState)
    (hc : s.avail + activeSum s.resvs = N) :
    (expire now rid s).avail + activeSum (expire now rid s).resvs = N := by
  unfold expire
  split
  · exact hc
  · rename_i r hfind
    split
    · rename_i helig
      have hsum := activeSum_setFirst rid (fun x => { x with status := .EXPIRED })
        (fun x => rfl) s.resvs r hfind helig.1
      show s.avail + r.quantity +
        activeSum (setFirst rid (fun x => { x with status := .EXPIRED }) s.resvs) = N
      omega
    · exact hc

theorem createOrExtend_ok_avail (now ttl newId actor q : Nat) (s s2 : EngineState)
    (h : createOrExtend now ttl newId actor q s = .ok s2) :
    q ≤ s.avail ∧ s2.avail = s.avail - q := by
  unfold createOrExtend at h
  by_cases hlt : s.avail < q
  · rw [if_pos hlt] at h
    exact absurd h (by simp)
  · rw [if_neg hlt] at h
    injection h with h2
    refine ⟨by omega, ?_⟩
    rw [← h2]

theorem createOrExtend_error_eq (now ttl newId actor q : Nat) (s : EngineState)
    (e : EngErr) (h : createOrExtend now ttl newId actor q s = .error e) :
    e = .InsufficientStock ∧ s.avail < q := by
  unfold createOrExtend at h
  by_cases hlt : s.avail < q
  · rw [if_pos hlt] at h
    injection h with h2
    exact ⟨h2.symm, hlt⟩
  · rw [if_neg hlt] at h
    exact absurd h (by simp)

theorem runRequests_count (now ttl q : Nat) (hq : 0 < q) (reqs : List (Nat × Nat)) :
    ∀ s : EngineState, (runRequests now ttl q reqs s).2 = min reqs.length (s.avail / q) := by
  induction reqs with
  | nil =>
    intro s
    simp [runRequests]
  | cons hd rest ih =>
    intro s
    unfold runRequests
    rcases hcall : createOrExtend now ttl hd.1 hd.2 q s with e | s2
    · show (runRequests now ttl q rest s).2 = min (rest.length + 1) (s.avail / q)
      have hlt := (createOrExtend_error_eq now ttl hd.1 hd.2 q s e hcall).2
      rw [ih s, Nat.div_eq_of_lt hlt]
      simp
    · show (runRequests now ttl q rest s2).2 + 1 = min (rest.length + 1) (s.avail / q)
      obtain ⟨hle, havail⟩ := createOrExtend_ok_avail now ttl hd.1 hd.2 q s s2 hcall
      rw [ih s2, havail]
      have hdiv : s.avail / q = (s.avail - q) / q + 1 := by
        conv_lhs => rw [show s.avail = (s.avail - q) + q by omega]
        rw [Nat.add_div_right _ hq]
      rw [hdiv]
      have hmin := Nat.succ_min_succ rest.length ((s.avail - q) / q)
      omega

theorem runRequests_conserv (now ttl q N : Nat) (reqs : List (Nat × Nat)) :
    ∀ s : EngineState, s.avail + activeSum s.resvs = N →
      ((runRequests now ttl q reqs s).1).avail +
        activeSum ((runRequests now ttl q reqs s).1).resvs = N := by
  induction reqs with
  | nil => intro s hc; exact hc
  | cons hd rest ih =>
    intro s hc
    unfold runRequests
    rcases hcall : createOrExtend now ttl hd.1 hd.2 q s with e | s2
    · exact ih s hc
    · exact ih s2 (conserv_createOrExtend N now ttl hd.1 hd.2 q s s2 hc hcall)

theorem runRequests_avail (now ttl q : Nat) (reqs : List (Nat × Nat)) :
    ∀ s : EngineState, ((runRequests now ttl q reqs s).1).avail =
      s.avail - (runRequests now ttl q reqs s).2 * q := by
  induction reqs with
  | nil =>
    intro s
    simp [runRequests]
  | cons hd rest ih =>
    intro s
    unfold runRequests
    rcases hcall : createOrExtend now ttl hd.1 hd.2 q s with e | s2
    · exact ih s
    · obtain ⟨hle, havail⟩ := createOrExtend_ok_avail now ttl hd.1 hd.2 q s s2 hcall
      show ((runRequests now ttl q rest s2).1).avail =
        s.avail - ((runRequests now ttl q rest s2).2 + 1) * q
      rw [ih s2, havail]
      have hexp : ((runRequests now ttl q rest s2).2 + 1) * q =
          (runRequests now ttl q rest s2).2 * q + q := by ring
      omega

/-- C1 (spec-modelled): on a single item with initial stock `N` and no reservations,
a batch of `K` Create/Extend requests of common quantity `q` with `K*q > N` — in any
serialisation order, which is what the item row lock of §5 reduces a concurrent
execution to — has exactly `⌊N/q⌋` successes; every failure is `InsufficientStock`
with no mutation; after every prefix of the batch (every observable point)
`availableQuantity + Σ(quantity of ACTIVE reservations) = N`; and the final
`availableQuantity` is `N % q ≥ 0` — stock is never oversold. -/
theorem no_oversell_and_conservation (N q K now ttl : Nat) (reqs : List (Nat × Nat))
    (hq : 0 < q) (hK : reqs.length = K) (hover : N < K * q) :
    (runRequests now ttl q reqs ⟨N, []⟩).2 = N / q ∧
    K - (runRequests now ttl q reqs ⟨N, []⟩).2 = K - N / q ∧
    (∀ (newId actor : Nat) (s : EngineState) (e : EngErr),
      createOrExtend now ttl newId actor q s = .error e → e = .InsufficientStock) ∧
    (∀ i : Nat,
      ((runRequests now ttl q (reqs.take i) ⟨N, []⟩).1).avail +
        activeSum ((runRequests now ttl q (reqs.take i) ⟨N, []⟩).1).resvs = N) ∧
    ((runRequests now ttl q reqs ⟨N, []⟩).1).avail = N % q := by
  have hcount : (runRequests now ttl q reqs ⟨N, []⟩).2 = N / q := by
    rw [runRequests_count now ttl q hq reqs ⟨N, []⟩]
    show min reqs.length (N / q) = N / q
    have hlt : N / q < K := (Nat.div_lt_iff_lt_mul hq).mpr hover
    rw [hK]
    exact min_eq_right (by omega)
  refine ⟨hcount, by rw [hcount], ?_, ?_, ?_⟩
  · intro newId actor s e h
    exact (createOrExtend_error_eq now ttl newId actor q s e h).1
  · intro i
    refine runRequests_conserv now ttl q N (reqs.take i) ⟨N, []⟩ ?_
    show N + activeSum [] = N
    simp [activeSum]
  · rw [runRequests_avail now ttl q reqs ⟨N, []⟩, hcount]
    show N - N / q * q = N % q
    have hdm := Nat.div_add_mod N q
    have hcomm : N / q * q = q * (N / q) := Nat.mul_comm _ _
    omega

/-- Witness for C1: stock 5, three concurrent requests of quantity 2 — exactly
`⌊5/2⌋ = 2` succeed and the final stock is `5 % 2 = 1`. -/
theorem no_oversell_and_conservation_witness :
    (runRequests 0 120000 2 [(1, 101), (2, 102), (3, 103)] ⟨5, []⟩).2 = 5 / 2 ∧
    ((runRequests 0 120000 2 [(1, 101), (2, 102), (3, 103)] ⟨5, []⟩).1).avail = 5 % 2 :=
  ⟨(no_oversell_and_conservation 5 2 3 0 120000 [(1, 101), (2, 102), (3, 103)]
      (by decide) (by decide) (by decide)).1,
   (no_oversell_and_conservation 5 2 3 0 120000 [(1, 101), (2, 102), (3, 103)]
      (by decide) (by decide) (by decide)).2.2.2.2⟩
